import Mathlib

/-!
Verification of the APL repository: a hand-rolled dense matrix kernel
(Assignment3/matmul.py, recovered from its compiled form under src/unnamed)
and the MNA circuit solver described by the a2-spice README.

Python numeric values (Numeric = Union[int, float, complex]) are idealized
as elements of an arbitrary commutative ring; concrete instances below use
the integers or the rationals.  Python values reaching the kernel are
modelled by the inductive `PyVal` covering the two kinds the validation
logic distinguishes: numbers (not iterable) and lists (iterable).
Exceptions are modelled by an explicit error value carrying the Python
exception class (ValueError / TypeError) and its message.
-/

namespace Matmul

/-- Python exception classes raised by the kernel. -/
inductive PyErrorKind where
  | valueError
  | typeError
deriving DecidableEq

/-- A raised Python exception: class plus message. -/
structure PyError where
  kind : PyErrorKind
  msg : String
deriving DecidableEq

/-- Python values reaching the kernel: numbers or (nested) lists. -/
inductive PyVal (α : Type) where
  | num : α → PyVal α
  | list : List (PyVal α) → PyVal α

variable {α : Type} [CommRing α]

/-- Python hasattr(matrix, \x22__iter__\x22): lists are iterable, numbers are not. -/
def has_iter : PyVal α → Bool
  | .num _ => false
  | .list _ => true

/-- Python len() on a list.  The 0 default for a number is never reached by
the kernel: every len call is guarded by a preceding iterability check. -/
def pyLen : PyVal α → ℕ
  | .num _ => 0
  | .list l => l.length

/-- Python matrix[0].  The default is never reached by the kernel: every
subscript is guarded by preceding iterability and nonemptiness checks. -/
def pyFirst : PyVal α → PyVal α
  | .list (x :: _) => x
  | v => v

/-- The elements of a list value (empty for a number; the kernel only
iterates values it has checked to be iterable). -/
def asL : PyVal α → List (PyVal α)
  | .num _ => []
  | .list l => l

/-- Python isinstance(i, get_args(Numeric)) with Numeric = Union[int, float, complex]. -/
def isNum : PyVal α → Bool
  | .num _ => true
  | .list _ => false

/-- The numeric content of a value (0 for a list; the kernel only reads
entries after the all-numeric check has passed). -/
def asNum : PyVal α → α
  | .num q => q
  | .list _ => 0

/-- The ordered check list built at the top of matrix_multiply:
each entry is (check lambda, exception class, message). -/
def checks : List ((PyVal α → Bool) × PyErrorKind × String) :=
  [ (fun matrix => has_iter matrix, .valueError, "Must have atleast 1 dim"),
    (fun matrix => decide (0 < pyLen matrix), .valueError, "Must have atleast 1 row"),
    (fun matrix => (asL matrix).all (fun i => has_iter i), .valueError, "Must have atleast 2 dims"),
    (fun matrix => decide (0 < pyLen (pyFirst matrix)), .valueError, "Must have atleast 1 col"),
    (fun matrix => (asL matrix).all (fun i => pyLen i == pyLen (pyFirst matrix)), .valueError,
      "Rows must have same len"),
    (fun matrix => (asL matrix).all (fun row => (asL row).all (fun i => isNum i)), .typeError,
      "Must contain only numeric data") ]

/-- The validation loop of matrix_multiply over the check list:
for check, error, message in checks:
    if check(matrix1) and check(matrix2): continue
    raise error(message)
Returns the first raised exception, if any. -/
def runChecks : List ((PyVal α → Bool) × PyErrorKind × String) → PyVal α → PyVal α →
    Option PyError
  | [], _, _ => none
  | (check, error, message) :: rest, matrix1, matrix2 =>
      if check matrix1 && check matrix2 then runChecks rest matrix1 matrix2
      else some ⟨error, message⟩

/-- A validated matrix read off as a table of ring elements. -/
def toRows (m : PyVal α) : List (List α) :=
  (asL m).map (fun r => (asL r).map asNum)

/-- multiply(row1, row2) = sum(i * j for i, j in zip(row1, row2)). -/
def multiply (row1 row2 : List α) : α :=
  ((row1.zip row2).map (fun p => p.1 * p.2)).sum

/-- matrix_multiply(matrix1, matrix2) from Assignment3/matmul.py:
runs the six checks in order on both arguments (matrix1 first), raising the
first failure; then raises ValueError("Matrices cannot be multiplied") when
len(matrix1) != len(matrix2[0]); otherwise transposes matrix2 via
[[row[i] for row in matrix2] for i in range(len(matrix2[0]))] and fills
resultant_matrix[i][j] = multiply(matrix1[i], matrix2_transpose[j])
for i in range(len(matrix1)) and j in range(len(matrix2_transpose)). -/
def matrix_multiply (matrix1 matrix2 : PyVal α) : Except PyError (List (List α)) :=
  match runChecks checks matrix1 matrix2 with
  | some e => .error e
  | none =>
      if pyLen matrix1 ≠ pyLen (pyFirst matrix2) then
        .error ⟨.valueError, "Matrices cannot be multiplied"⟩
      else
        let m1 : List (List α) := toRows matrix1
        let m2 : List (List α) := toRows matrix2
        let matrix2_transpose : List (List α) :=
          (List.range (pyLen (pyFirst matrix2))).map (fun i => m2.map (fun row => row.getD i 0))
        .ok (m1.map (fun row1 => matrix2_transpose.map (fun row2 => multiply row1 row2)))

/-- Shorthand: the Python value for a list of lists of numbers. -/
def pyMat (m : List (List α)) : PyVal α :=
  .list (m.map (fun r => .list (r.map (fun q => .num q))))

/-- A value passes all six structural/type checks. -/
def passesAll (m : PyVal α) : Bool :=
  checks.all (fun c => c.1 m)

/-- The first of the six checks that fails on one value, together with its
exception class and message (the per-matrix validation the spec describes). -/
def firstFail (m : PyVal α) : Option PyError :=
  (checks.find? (fun c => !c.1 m)).map (fun c => ⟨c.2.1, c.2.2⟩)

end Matmul

namespace Spice

/-- Modelled from the spec: the closed set of circuit element kinds
(the evalSpice source itself is not in the repository snapshot; only the
README describing it is, so the MNA core is modelled from the spec). -/
inductive ElementKind where
  | resistor
  | currentSource
  | voltageSource
deriving DecidableEq

/-- Modelled from the spec: one circuit component with kind, name, the two
terminal node names and a numeric value (ohms, amperes or volts). -/
structure Element where
  kind : ElementKind
  name : String
  a : String
  b : String
  value : ℚ

/-- Modelled from the spec: the reserved ground node name. -/
def ground : String := "GND"

/-- Modelled from the spec: assign_indices - walk the element list once and
give each non-ground terminal node the next unused index in first-encounter
order.  The returned list holds the node names in index order. -/
def nodeOrder (elems : List Element) : List String :=
  elems.foldl (fun acc e =>
    let acc := if e.a = ground ∨ e.a ∈ acc then acc else acc ++ [e.a]
    if e.b = ground ∨ e.b ∈ acc then acc else acc ++ [e.b]) []

/-- Modelled from the spec: voltage-source names in the order their branch
indices are assigned (element-list order). -/
def vsourceNames (elems : List Element) : List String :=
  (elems.filter (fun e => e.kind == .voltageSource)).map (fun e => e.name)

/-- Modelled from the spec: the equation index of a node (none for ground
or for a node never assigned). -/
def nodeIdx (nodes : List String) (s : String) : Option ℕ :=
  nodes.indexOf? s

/-- Modelled from the spec: row[j] += v (no-op outside the row). -/
def setAdd : List ℚ → ℕ → ℚ → List ℚ
  | [], _, _ => []
  | x :: xs, 0, v => (x + v) :: xs
  | x :: xs, j + 1, v => x :: setAdd xs j v

/-- Modelled from the spec: matrix[i][j] += v (no-op outside the matrix). -/
def addAt : List (List ℚ) → ℕ → ℕ → ℚ → List (List ℚ)
  | [], _, _, _ => []
  | row :: rest, 0, j, v => setAdd row j v :: rest
  | row :: rest, i + 1, j, v => row :: addAt rest i j v

/-- Modelled from the spec: stamp one element into the augmented matrix,
carrying the matrix and the next voltage-source branch counter: a resistor
adds +g = 1/R on each non-ground terminal's diagonal and -g on the two
cross terms when both terminals are non-ground; a current source subtracts
its value from terminal A's constant column and adds it to terminal B's; a
voltage source with branch equation row e adds +1 at (A, e), -1 at (B, e),
+1 at (e, A), -1 at (e, B) and its value in the constant column of row e,
skipping ground terminals. -/
def stamp (nodes : List String) (nN size : ℕ) (st : List (List ℚ) × ℕ) (e : Element) :
    List (List ℚ) × ℕ :=
  let m := st.1
  let vIdx := st.2
  match e.kind with
  | .resistor =>
      let g := 1 / e.value
      let m := match nodeIdx nodes e.a with
        | some ia => addAt m ia ia g
        | none => m
      let m := match nodeIdx nodes e.b with
        | some ib => addAt m ib ib g
        | none => m
      let m := match nodeIdx nodes e.a, nodeIdx nodes e.b with
        | some ia, some ib => addAt (addAt m ia ib (-g)) ib ia (-g)
        | _, _ => m
      (m, vIdx)
  | .currentSource =>
      let m := match nodeIdx nodes e.a with
        | some ia => addAt m ia size (-e.value)
        | none => m
      let m := match nodeIdx nodes e.b with
        | some ib => addAt m ib size e.value
        | none => m
      (m, vIdx)
  | .voltageSource =>
      let eRow := nN + vIdx
      let m := match nodeIdx nodes e.a with
        | some ia => addAt (addAt m ia eRow 1) eRow ia 1
        | none => m
      let m := match nodeIdx nodes e.b with
        | some ib => addAt (addAt m ib eRow (-1)) eRow ib (-1)
        | none => m
      (addAt m eRow size e.value, vIdx + 1)

/-- Modelled from the spec: generate_eqns - build the augmented matrix of
shape (N + V) x (N + V + 1), starting from all zeros and stamping each
element in element-list order. -/
def generate_eqns (elems : List Element) : List (List ℚ) :=
  let nodes := nodeOrder elems
  let nN := nodes.length
  let nV := (vsourceNames elems).length
  let size := nN + nV
  let init : List (List ℚ) := List.replicate size (List.replicate (size + 1) 0)
  (elems.foldl (stamp nodes nN size) (init, 0)).1

/-- Laplace expansion along the first row: the determinant of a square
matrix given as a list of rows. -/
def detL : List (List ℚ) → ℚ
  | [] => 1
  | firstRow :: rest =>
      ((List.range firstRow.length).map
        (fun j => (-1 : ℚ) ^ j * firstRow.getD j 0 *
          detL (rest.map (fun row => row.eraseIdx j)))).sum
termination_by m => m.length
decreasing_by simp [List.length_map]

/-- Modelled from the spec: the coefficient sub-matrix G - all columns of
the augmented matrix except the last. -/
def coeffMatrix (aug : List (List ℚ)) : List (List ℚ) :=
  aug.map (fun r => r.dropLast)

/-- Modelled from the spec: the constant column I - the last column of the
augmented matrix. -/
def rhsColumn (aug : List (List ℚ)) : List ℚ :=
  aug.map (fun r => r.getLastD 0)

/-- Column i of the matrix replaced by the given column vector. -/
def replaceCol (m : List (List ℚ)) (col : List ℚ) (i : ℕ) : List (List ℚ) :=
  (m.zip col).map (fun rc => rc.1.set i rc.2)

/-- Modelled from the spec: x = G inverse applied to I, computed exactly by
Cramer quotients x_i = det(G with column i replaced by I) / det G. -/
def cramerX (g : List (List ℚ)) (b : List ℚ) : List ℚ :=
  (List.range g.length).map (fun i => detL (replaceCol g b i) / detL g)

/-- Modelled from the spec: the error taxonomy member the solver raises. -/
inductive SpiceError where
  | singularSystem
deriving DecidableEq

/-- Modelled from the spec: solve() - first check the coefficient
sub-matrix for singularity (zero determinant / failed inversion) and fail
with SingularSystemError without attempting the solve; otherwise compute
x = G inverse times I and split it: the first N entries become the
node-to-voltage mapping (ground excluded) and the remaining V entries the
voltage-source-to-branch-current mapping in branch-index order. -/
def solve (elems : List Element) :
    Except SpiceError (List (String × ℚ) × List (String × ℚ)) :=
  let aug := generate_eqns elems
  let g := coeffMatrix aug
  if detL g = 0 then .error .singularSystem
  else
    let x := cramerX g (rhsColumn aug)
    let nodes := nodeOrder elems
    .ok (nodes.zip (x.take nodes.length), (vsourceNames elems).zip (x.drop nodes.length))

/-- Scenario A of the README: Vs n1 GND dc 10; Is n2 GND dc 1; R1 n1 n2 2. -/
def scenarioA : List Element :=
  [ ⟨.voltageSource, "Vs", "n1", ground, 10⟩,
    ⟨.currentSource, "Is", "n2", ground, 1⟩,
    ⟨.resistor, "R1", "n1", "n2", 2⟩ ]

/-- A one-resistor circuit used to exercise the nonsingular branch of the
solve contract. -/
def oneResistor : List Element :=
  [ ⟨.resistor, "R1", "n1", ground, 2⟩ ]

/-- The square matrix over Fin n read off a list-of-rows table. -/
def toMat (n : ℕ) (m : List (List ℚ)) : Matrix (Fin n) (Fin n) ℚ :=
  Matrix.of fun i j => (m.getD i []).getD j 0

/-- The vector over Fin n read off a list. -/
def toVec (n : ℕ) (b : List ℚ) : Fin n → ℚ :=
  fun i => b.getD i 0

/-- A matrix has size rows and size + 1 columns. -/
def GoodShape (size : ℕ) (m : List (List ℚ)) : Prop :=
  m.length = size ∧ ∀ r ∈ m, r.length = size + 1

end Spice

namespace Matmul

variable {α : Type} [CommRing α]

/-- The zip-based dot product equals the index-based dot product truncated
to the shorter of the two rows. -/
theorem multiply_eq_sum_range_min (a b : List α) :
    multiply a b =
      ((List.range (min a.length b.length)).map (fun i => a.getD i 0 * b.getD i 0)).sum := by
  induction a generalizing b with
  | nil => simp [multiply]
  | cons x xs ih =>
      cases b with
      | nil => simp [multiply]
      | cons y ys =>
          have h := ih ys
          simp only [multiply, List.zip_cons_cons, List.map_cons, List.sum_cons] at h ⊢
          rw [List.length_cons, List.length_cons, Nat.succ_min_succ, List.range_succ_eq_map,
            List.map_cons, List.sum_cons, List.map_map]
          simp only [List.getD_cons_zero, List.getD_cons_succ, Function.comp_def, h]

/-- When the second value passes every check in the list, the validation
loop reports exactly the first check the first value fails. -/
theorem runChecks_eq_find_left (cs : List ((PyVal α → Bool) × PyErrorKind × String))
    (m1 m2 : PyVal α) (h : ∀ c ∈ cs, c.1 m2 = true) :
    runChecks cs m1 m2 = (cs.find? (fun c => !c.1 m1)).map (fun c => ⟨c.2.1, c.2.2⟩) := by
  induction cs with
  | nil => rfl
  | cons c rest ih =>
      obtain ⟨chk, k, msg⟩ := c
      have hc : chk m2 = true := h _ (List.mem_cons_self _ _)
      rw [runChecks, hc]
      by_cases h1 : chk m1
      · rw [h1]
        simp only [Bool.and_self, if_true, List.find?_cons, h1, Bool.not_true]
        exact ih (fun c hmem => h c (List.mem_cons_of_mem _ hmem))
      · rw [Bool.eq_false_iff.mpr h1]
        simp [List.find?_cons, Bool.eq_false_iff.mpr h1]

/-- When the first value passes every check in the list, the validation
loop reports exactly the first check the second value fails. -/
theorem runChecks_eq_find_right (cs : List ((PyVal α → Bool) × PyErrorKind × String))
    (m1 m2 : PyVal α) (h : ∀ c ∈ cs, c.1 m1 = true) :
    runChecks cs m1 m2 = (cs.find? (fun c => !c.1 m2)).map (fun c => ⟨c.2.1, c.2.2⟩) := by
  induction cs with
  | nil => rfl
  | cons c rest ih =>
      obtain ⟨chk, k, msg⟩ := c
      have hc : chk m1 = true := h _ (List.mem_cons_self _ _)
      rw [runChecks, hc]
      by_cases h2 : chk m2
      · rw [h2]
        simp only [Bool.and_self, if_true, List.find?_cons, h2, Bool.not_true]
        exact ih (fun c hmem => h c (List.mem_cons_of_mem _ hmem))
      · rw [Bool.eq_false_iff.mpr h2]
        simp [List.find?_cons, Bool.eq_false_iff.mpr h2]

/-- An error reported by the validation loop always comes from an entry of
the check list. -/
theorem runChecks_some_mem (cs : List ((PyVal α → Bool) × PyErrorKind × String))
    (m1 m2 : PyVal α) (e : PyError) (h : runChecks cs m1 m2 = some e) :
    ∃ c ∈ cs, e = ⟨c.2.1, c.2.2⟩ := by
  induction cs with
  | nil => simp [runChecks] at h
  | cons c rest ih =>
      obtain ⟨chk, k, msg⟩ := c
      rw [runChecks] at h
      by_cases hcond : (chk m1 && chk m2) = true
      · rw [if_pos hcond] at h
        obtain ⟨c', hmem, he⟩ := ih h
        exact ⟨c', List.mem_cons_of_mem _ hmem, he⟩
      · rw [if_neg hcond] at h
        exact ⟨(chk, k, msg), List.mem_cons_self _ _, (Option.some_inj.mp h).symm⟩

/-- C1: evaluation of the code at the failing input.  matrix1 = [[1, 2]]
passes all six structural checks and the inner dimensions disagree
(matrix1 is 1 x 2, matrix2 is 3 x 1, k = 2 and k-prime = 3), yet the code
raises nothing: because its seventh check compares len(matrix1) with
len(matrix2[0]) (1 = 1 here), it computes [[11]] out of zip-truncated dot
products instead of raising "Matrices cannot be multiplied". -/
theorem matrix_multiply_dim_mismatch_no_error :
    passesAll (α := ℤ) (pyMat [[1, 2]]) = true ∧
    pyLen (pyFirst (pyMat (α := ℤ) [[1, 2]])) = 2 ∧
    pyLen (pyMat (α := ℤ) [[3], [4], [5]]) = 3 ∧
    matrix_multiply (α := ℤ) (pyMat [[1, 2]]) (pyMat [[3], [4], [5]]) = .ok [[11]] :=
  ⟨rfl, rfl, rfl, rfl⟩

/-- C2: evaluation of the code at the failing input.  matrix1 = [[1, 2]]
and matrix2 = [[1, 2], [3, 4]] are well-formed with agreeing inner
dimensions (1 x 2 times 2 x 2), so the documented behavior is to return the
product [[7, 10]]; the code instead raises "Matrices cannot be multiplied"
because it compares len(matrix1) = 1 with len(matrix2[0]) = 2. -/
theorem matrix_multiply_compatible_pair_raises :
    passesAll (α := ℤ) (pyMat [[1, 2]]) = true ∧
    passesAll (α := ℤ) (pyMat [[1, 2], [3, 4]]) = true ∧
    matrix_multiply (α := ℤ) (pyMat [[1, 2]]) (pyMat [[1, 2], [3, 4]]) =
      .error ⟨.valueError, "Matrices cannot be multiplied"⟩ :=
  ⟨rfl, rfl, rfl⟩

/-- C3: for equal-length numeric rows, multiply returns the sum of pairwise
products sum(a[i] * b[i] for i in range(len(a))), with no side effects. -/
theorem multiply_row_dot_product (a b : List α) (h : a.length = b.length) :
    multiply a b = ((List.range a.length).map (fun i => a.getD i 0 * b.getD i 0)).sum := by
  rw [multiply_eq_sum_range_min, h, Nat.min_self]

/-- C3 witness: the dot product of [1, 2] and [3, 4]. -/
theorem multiply_row_dot_product_witness :
    ([1, 2] : List ℤ).length = ([3, 4] : List ℤ).length ∧
    multiply ([1, 2] : List ℤ) [3, 4] =
      ((List.range ([1, 2] : List ℤ).length).map
        (fun i => ([1, 2] : List ℤ).getD i 0 * ([3, 4] : List ℤ).getD i 0)).sum :=
  ⟨rfl, multiply_row_dot_product [1, 2] [3, 4] rfl⟩

/-- C4 counterexample: matrix1 = [[]] passes checks 1 to 3 and fails check 4,
so its first failing check is "Must have atleast 1 col"; but with
matrix2 = 5 the code raises "Must have atleast 1 dim" (check 1 run against
matrix2), so the failure raised is not the named failure of the first check
matrix1 fails. -/
theorem matrix_multiply_first_fail_preempted :
    firstFail (α := ℤ) (.list [.list []]) = some ⟨.valueError, "Must have atleast 1 col"⟩ ∧
    matrix_multiply (α := ℤ) (.list [.list []]) (.num 5) =
      .error ⟨.valueError, "Must have atleast 1 dim"⟩ ∧
    (PyError.mk .valueError "Must have atleast 1 dim") ≠
      ⟨.valueError, "Must have atleast 1 col"⟩ :=
  ⟨rfl, rfl, by decide⟩

/-- C4 amended: the six checks run in order against both matrices; whenever
matrix2 passes all six, matrix_multiply raises exactly the named failure of
the first check that fails on matrix1 (so, in particular, a ragged matrix1
raises the "Rows must have same len" ValueError before any arithmetic). -/
theorem matrix_multiply_ordered_checks (m1 m2 : PyVal α) (e : PyError)
    (h2 : passesAll m2 = true) (h1 : firstFail m1 = some e) :
    matrix_multiply m1 m2 = .error e := by
  have hall : ∀ c ∈ checks (α := α), c.1 m2 = true := by
    intro c hc
    exact List.all_eq_true.mp h2 c hc
  unfold matrix_multiply
  rw [runChecks_eq_find_left checks m1 m2 hall]
  rw [firstFail] at h1
  rw [h1]

/-- C4 witness: the ragged matrix1 = [[1], [2, 3]] against the well-formed
matrix2 = [[1]] raises the "Rows must have same len" ValueError. -/
theorem matrix_multiply_ordered_checks_witness :
    passesAll (α := ℤ) (pyMat [[1]]) = true ∧
    firstFail (α := ℤ) (.list [.list [.num 1], .list [.num 2, .num 3]]) =
      some ⟨.valueError, "Rows must have same len"⟩ ∧
    matrix_multiply (α := ℤ) (.list [.list [.num 1], .list [.num 2, .num 3]]) (pyMat [[1]]) =
      .error ⟨.valueError, "Rows must have same len"⟩ :=
  ⟨rfl, rfl, matrix_multiply_ordered_checks _ _ _ rfl rfl⟩

/-- C5 counterexample: matrix1 = [[1]] passes all six checks, yet with
matrix2 = 5 (not iterable) the code raises the structural failure
"Must have atleast 1 dim" on account of matrix2 alone, refuting the claim
that the structural checks are never run against matrix2. -/
theorem matrix_multiply_checks_matrix2 :
    passesAll (α := ℤ) (pyMat [[1]]) = true ∧
    matrix_multiply (α := ℤ) (pyMat [[1]]) (.num 5) =
      .error ⟨.valueError, "Must have atleast 1 dim"⟩ :=
  ⟨rfl, rfl⟩

/-- C5 amended: each of the six checks is run against matrix1 and then
matrix2; when matrix1 passes all six, the named failure of the first check
that fails on matrix2 is raised. -/
theorem matrix_multiply_checks_both (m1 m2 : PyVal α) (e : PyError)
    (h1 : passesAll m1 = true) (h2 : firstFail m2 = some e) :
    matrix_multiply m1 m2 = .error e := by
  have hall : ∀ c ∈ checks (α := α), c.1 m1 = true := by
    intro c hc
    exact List.all_eq_true.mp h1 c hc
  unfold matrix_multiply
  rw [runChecks_eq_find_right checks m1 m2 hall]
  rw [firstFail] at h2
  rw [h2]

/-- C5 witness: the well-formed matrix1 = [[2]] with the non-iterable
matrix2 = 7 raises the "Must have atleast 1 dim" ValueError. -/
theorem matrix_multiply_checks_both_witness :
    passesAll (α := ℤ) (pyMat [[2]]) = true ∧
    firstFail (α := ℤ) (.num 7) = some ⟨.valueError, "Must have atleast 1 dim"⟩ ∧
    matrix_multiply (α := ℤ) (pyMat [[2]]) (.num 7) =
      .error ⟨.valueError, "Must have atleast 1 dim"⟩ :=
  ⟨rfl, rfl, matrix_multiply_checks_both _ _ _ rfl rfl⟩

/-- C6: evaluation of the code at the failing input.  For the well-formed
1 x 2 matrix M = [[1, 2]] and the 2 x 2 identity, M times the identity
should return M, but the code raises "Matrices cannot be multiplied"
because it compares len(M) = 1 with len(identity[0]) = 2. -/
theorem matrix_multiply_identity_raises :
    passesAll (α := ℤ) (pyMat [[1, 2]]) = true ∧
    matrix_multiply (α := ℤ) (pyMat [[1, 2]]) (pyMat [[1, 0], [0, 1]]) =
      .error ⟨.valueError, "Matrices cannot be multiplied"⟩ :=
  ⟨rfl, rfl⟩

/-- C9: multiply is total on all pairs of numeric rows; on unequal lengths
it silently returns the dot product of the first min(len(row1), len(row2))
entries instead of detecting the precondition violation. -/
theorem multiply_row_truncates (a b : List α) :
    multiply a b =
      ((List.range (min a.length b.length)).map (fun i => a.getD i 0 * b.getD i 0)).sum :=
  multiply_eq_sum_range_min a b

/-- C10: every failure raised by matrix_multiply is a ValueError, except the
"Must contain only numeric data" failure, which is a TypeError. -/
theorem matrix_multiply_error_kinds (m1 m2 : PyVal α) (e : PyError)
    (h : matrix_multiply m1 m2 = .error e) :
    e.kind = if e.msg = "Must contain only numeric data" then PyErrorKind.typeError
      else PyErrorKind.valueError := by
  unfold matrix_multiply at h
  cases hr : runChecks (α := α) checks m1 m2 with
  | some e' =>
      rw [hr] at h
      obtain he : e' = e := by
        cases h
        rfl
      subst he
      obtain ⟨c, hmem, hce⟩ := runChecks_some_mem checks m1 m2 e' hr
      subst hce
      simp only [checks, List.mem_cons, List.not_mem_nil, or_false] at hmem
      rcases hmem with h1 | h2 | h3 | h4 | h5 | h6 <;> subst_vars <;> simp
  | none =>
      rw [hr] at h
      by_cases hd : pyLen m1 ≠ pyLen (pyFirst m2)
      · rw [if_pos hd] at h
        obtain he : PyError.mk .valueError "Matrices cannot be multiplied" = e := by
          cases h
          rfl
        subst he
        decide
      · rw [if_neg hd] at h
        cases h

/-- C10 witness: the non-iterable pair raises the first check ValueError,
whose class matches the message-based classification. -/
theorem matrix_multiply_error_kinds_witness :
    matrix_multiply (α := ℤ) (.num 5) (.num 5) =
      .error ⟨.valueError, "Must have atleast 1 dim"⟩ ∧
    (PyError.mk .valueError "Must have atleast 1 dim").kind =
      (if (PyError.mk .valueError "Must have atleast 1 dim").msg =
          "Must contain only numeric data" then PyErrorKind.typeError
        else PyErrorKind.valueError) :=
  ⟨rfl, matrix_multiply_error_kinds (α := ℤ) (.num 5) (.num 5) _ rfl⟩

end Matmul

namespace Spice

theorem setAdd_length (r : List ℚ) (j : ℕ) (v : ℚ) : (setAdd r j v).length = r.length := by
  induction r generalizing j with
  | nil => rfl
  | cons x xs ih => cases j <;> simp [setAdd, ih]

theorem addAt_length (m : List (List ℚ)) (i j : ℕ) (v : ℚ) : (addAt m i j v).length = m.length := by
  induction m generalizing i with
  | nil => rfl
  | cons row rest ih => cases i <;> simp [addAt, ih]

theorem addAt_rows (m : List (List ℚ)) (i j : ℕ) (v : ℚ) (cols : ℕ)
    (h : ∀ r ∈ m, r.length = cols) : ∀ r ∈ addAt m i j v, r.length = cols := by
  induction m generalizing i with
  | nil =>
      intro r hr
      simp [addAt] at hr
  | cons row rest ih =>
      intro r hr
      cases i with
      | zero =>
          rw [addAt] at hr
          rcases List.mem_cons.mp hr with rfl | hmem
          · rw [setAdd_length]
            exact h row (List.mem_cons_self _ _)
          · exact h r (List.mem_cons_of_mem _ hmem)
      | succ i =>
          rw [addAt] at hr
          rcases List.mem_cons.mp hr with rfl | hmem
          · exact h r (List.mem_cons_self _ _)
          · exact ih i (fun r hr => h r (List.mem_cons_of_mem _ hr)) r hmem

theorem GoodShape.addAt {size : ℕ} {m : List (List ℚ)} (h : GoodShape size m) (i j : ℕ) (v : ℚ) :
    GoodShape size (Spice.addAt m i j v) :=
  ⟨(addAt_length m i j v).trans h.1, addAt_rows m i j v _ h.2⟩

theorem stamp_good {size nN : ℕ} {nodes : List String} {st : List (List ℚ) × ℕ} {e : Element}
    (h : GoodShape size st.1) : GoodShape size (stamp nodes nN size st e).1 := by
  rcases st with ⟨m, vIdx⟩
  unfold stamp
  cases e.kind <;> dsimp only <;>
    repeat' split
  all_goals
    first
      | exact h
      | exact h.addAt _ _ _
      | exact (h.addAt _ _ _).addAt _ _ _
      | exact ((h.addAt _ _ _).addAt _ _ _).addAt _ _ _
      | exact (((h.addAt _ _ _).addAt _ _ _).addAt _ _ _).addAt _ _ _
      | exact ((((h.addAt _ _ _).addAt _ _ _).addAt _ _ _).addAt _ _ _).addAt _ _ _

theorem foldl_stamp_good {size nN : ℕ} {nodes : List String} :
    ∀ (elems : List Element) (st : List (List ℚ) × ℕ), GoodShape size st.1 →
      GoodShape size (elems.foldl (stamp nodes nN size) st).1 := by
  intro elems
  induction elems with
  | nil =>
      intro st h
      exact h
  | cons e rest ih =>
      intro st h
      exact ih _ (stamp_good h)

theorem generate_eqns_good (elems : List Element) :
    GoodShape ((nodeOrder elems).length + (vsourceNames elems).length) (generate_eqns elems) := by
  unfold generate_eqns
  apply foldl_stamp_good
  constructor
  · simp
  · intro r hr
    rw [List.eq_of_mem_replicate hr]
    simp

theorem toMat_minor (n : ℕ) (r : List ℚ) (rest : List (List ℚ)) (j : Fin (n + 1))
    (hrest : rest.length = n) (hrows : ∀ row ∈ rest, row.length = n + 1) :
    toMat n (rest.map (fun row => row.eraseIdx (j : ℕ))) =
      (toMat (n + 1) (r :: rest)).submatrix Fin.succ j.succAbove := by
  ext i k
  have hi : (i : ℕ) < rest.length := hrest ▸ i.isLt
  have hrow : rest[(i : ℕ)].length = n + 1 := hrows _ (List.getElem_mem hi)
  have hmap : (rest.map (fun row => row.eraseIdx (j : ℕ))).getD i [] =
      rest[(i : ℕ)].eraseIdx (j : ℕ) := by
    rw [List.getD_eq_getElem?_getD, List.getElem?_map, List.getElem?_eq_getElem hi]
    rfl
  have hsub : toMat n (rest.map (fun row => row.eraseIdx (j : ℕ))) i k =
      (rest[(i : ℕ)].eraseIdx (j : ℕ)).getD k 0 := by
    simp only [toMat, Matrix.of_apply, hmap]
  have hcons : (toMat (n + 1) (r :: rest)).submatrix Fin.succ j.succAbove i k =
      rest[(i : ℕ)].getD ((j.succAbove k : Fin (n + 1)) : ℕ) 0 := by
    simp only [Matrix.submatrix_apply, toMat, Matrix.of_apply]
    congr 1
    rw [List.getD_eq_getElem?_getD]
    simp only [Fin.val_succ, List.getElem?_cons_succ]
    rw [List.getElem?_eq_getElem hi]
    rfl
  rw [hsub, hcons]
  rw [List.getD_eq_getElem?_getD, List.getD_eq_getElem?_getD, List.getElem?_eraseIdx]
  by_cases hkj : (k : ℕ) < (j : ℕ)
  · rw [if_pos hkj, Fin.succAbove_of_castSucc_lt _ _ (by simpa [Fin.lt_def] using hkj)]
    rfl
  · rw [if_neg hkj,
      Fin.succAbove_of_le_castSucc _ _ (by simpa [Fin.le_def] using Nat.le_of_not_lt hkj)]
    rfl

theorem detL_eq_det (n : ℕ) : ∀ (m : List (List ℚ)), m.length = n →
    (∀ r ∈ m, r.length = n) → detL m = (toMat n m).det := by
  induction n with
  | zero =>
      intro m hm _
      have : m = [] := List.length_eq_zero.mp hm
      subst this
      rw [detL, Matrix.det_isEmpty]
  | succ n ih =>
      intro m hm hr
      obtain ⟨r, rest, rfl⟩ : ∃ r rest, m = r :: rest := by
        cases m with
        | nil => simp at hm
        | cons a l => exact ⟨a, l, rfl⟩
      have hrlen : r.length = n + 1 := hr r (List.mem_cons_self _ _)
      have hrest : rest.length = n := by simpa using hm
      rw [detL, Matrix.det_succ_row_zero, hrlen]
      rw [show ((List.range (n + 1)).map (fun j => (-1 : ℚ) ^ j * r.getD j 0 *
        detL (rest.map (fun row => row.eraseIdx j)))).sum =
        ∑ j in Finset.range (n + 1), (-1 : ℚ) ^ j * r.getD j 0 *
          detL (rest.map (fun row => row.eraseIdx j)) from rfl]
      rw [← Fin.sum_univ_eq_sum_range]
      refine Finset.sum_congr rfl fun j _ => ?_
      have hmem : ∀ row ∈ rest.map (fun row => row.eraseIdx (j : ℕ)), row.length = n := by
        intro row hrowmem
        obtain ⟨row0, hrow0, rfl⟩ := List.mem_map.mp hrowmem
        have : row0.length = n + 1 := hr row0 (List.mem_cons_of_mem _ hrow0)
        rw [List.length_eraseIdx_of_lt (by rw [this]; exact j.isLt), this]
        omega
      rw [ih _ (by simp [hrest]) hmem, toMat_minor n r rest j hrest
        (fun row hrowmem => hr row (List.mem_cons_of_mem _ hrowmem))]
      rfl

theorem toMat_replaceCol (n : ℕ) (g : List (List ℚ)) (b : List ℚ) (i : Fin n)
    (hg : g.length = n) (hrows : ∀ r ∈ g, r.length = n) (hb : b.length = n) :
    toMat n (replaceCol g b (i : ℕ)) = (toMat n g).updateColumn i (toVec n b) := by
  ext r k
  have hr : (r : ℕ) < g.length := hg ▸ r.isLt
  have hrb : (r : ℕ) < b.length := hb ▸ r.isLt
  have hrowlen : g[(r : ℕ)].length = n := hrows _ (List.getElem_mem hr)
  have hml : (r : ℕ) < ((g.zip b).map (fun rc => rc.1.set (i : ℕ) rc.2)).length := by
    rw [List.length_map, List.length_zip]
    omega
  have hrow : (replaceCol g b (i : ℕ)).getD r [] = g[(r : ℕ)].set i b[(r : ℕ)] := by
    rw [replaceCol, List.getD_eq_getElem?_getD, List.getElem?_eq_getElem hml]
    simp only [Option.getD_some, List.getElem_map, List.getElem_zip]
  rw [toMat, Matrix.of_apply, hrow, Matrix.updateColumn_apply]
  by_cases hk : k = i
  · subst hk
    rw [if_pos rfl]
    rw [List.getD_eq_getElem?_getD, List.getElem?_set_self (by rw [hrowlen]; exact k.isLt)]
    rw [toVec, List.getD_eq_getElem?_getD, List.getElem?_eq_getElem hrb]
  · rw [if_neg hk]
    rw [List.getD_eq_getElem?_getD, List.getElem?_set_ne (by intro hc; exact hk (Fin.ext hc.symm))]
    rw [toMat, Matrix.of_apply, List.getD_eq_getElem?_getD, List.getD_eq_getElem?_getD,
      List.getElem?_eq_getElem hr]
    rfl

theorem toVec_cramerX (n : ℕ) (g : List (List ℚ)) (b : List ℚ)
    (hg : g.length = n) (hrows : ∀ r ∈ g, r.length = n) (hb : b.length = n) :
    toVec n (cramerX g b) =
      fun i => Matrix.cramer (toMat n g) (toVec n b) i / (toMat n g).det := by
  funext i
  have hi : (i : ℕ) < g.length := hg ▸ i.isLt
  have hlen : (i : ℕ) < ((List.range g.length).map
      (fun j => detL (replaceCol g b j) / detL g)).length := by
    rw [List.length_map, List.length_range]
    exact hi
  rw [toVec, cramerX, List.getD_eq_getElem?_getD, List.getElem?_eq_getElem hlen]
  simp only [Option.getD_some, List.getElem_map, List.getElem_range]
  have hrepl_len : (replaceCol g b (i : ℕ)).length = n := by
    rw [replaceCol, List.length_map, List.length_zip, hg, hb, Nat.min_self]
  have hrepl_rows : ∀ r ∈ replaceCol g b (i : ℕ), r.length = n := by
    intro r hrmem
    rw [replaceCol] at hrmem
    obtain ⟨rc, hrc, rfl⟩ := List.mem_map.mp hrmem
    rw [List.length_set]
    exact hrows rc.1 (List.of_mem_zip hrc).1
  rw [detL_eq_det n _ hrepl_len hrepl_rows, detL_eq_det n g hg hrows]
  rw [toMat_replaceCol n g b i hg hrows hb, Matrix.cramer_apply]

theorem toVec_cramerX_inv_mulVec (n : ℕ) (g : List (List ℚ)) (b : List ℚ)
    (hg : g.length = n) (hrows : ∀ r ∈ g, r.length = n) (hb : b.length = n) :
    toVec n (cramerX g b) = Matrix.mulVec (toMat n g)⁻¹ (toVec n b) := by
  rw [toVec_cramerX n g b hg hrows hb]
  rw [Matrix.inv_def, Matrix.smul_mulVec_assoc, ← Matrix.cramer_eq_adjugate_mulVec,
    Ring.inverse_eq_inv]
  funext i
  rw [Pi.smul_apply, smul_eq_mul, div_eq_inv_mul]

/-- C7: for the circuit Vs n1 GND dc 10; Is n2 GND dc 1; R1 n1 n2 2, the
solver produces node voltages n1 = 10 and n2 = 8 and branch current -1
through Vs. -/
theorem solve_scenarioA : solve scenarioA = .ok ([("n1", 10), ("n2", 8)], [("Vs", -1)]) := by
  have h3 : List.range 3 = [0, 1, 2] := rfl
  have h2 : List.range 2 = [0, 1] := rfl
  have h1 : List.range 1 = [0] := rfl
  have h0 : List.range 0 = [] := rfl
  simp [solve, scenarioA, generate_eqns, stamp, nodeOrder, vsourceNames, nodeIdx, ground,
    addAt, setAdd, coeffMatrix, rhsColumn, cramerX, replaceCol, detL, List.indexOf?,
    h3, h2, h1, h0, List.eraseIdx, List.set]
  norm_num

/-- C8: solve first checks the coefficient sub-matrix (all columns but the
last) for singularity and on a singular system fails with
SingularSystemError producing no partial results; otherwise it returns the
node-to-voltage mapping (node order zip with the first N solution entries)
and the voltage-source-to-current mapping (branch order zip with the
remaining V entries), and the solution vector equals G inverse applied to
the constant column. -/
theorem solve_contract (elems : List Element) :
    (detL (coeffMatrix (generate_eqns elems)) = 0 →
      solve elems = .error .singularSystem) ∧
    (detL (coeffMatrix (generate_eqns elems)) ≠ 0 →
      solve elems = .ok
        ((nodeOrder elems).zip
          ((cramerX (coeffMatrix (generate_eqns elems)) (rhsColumn (generate_eqns elems))).take
            (nodeOrder elems).length),
         (vsourceNames elems).zip
          ((cramerX (coeffMatrix (generate_eqns elems)) (rhsColumn (generate_eqns elems))).drop
            (nodeOrder elems).length)) ∧
      toVec ((nodeOrder elems).length + (vsourceNames elems).length)
          (cramerX (coeffMatrix (generate_eqns elems)) (rhsColumn (generate_eqns elems))) =
        Matrix.mulVec
          (toMat ((nodeOrder elems).length + (vsourceNames elems).length)
            (coeffMatrix (generate_eqns elems)))⁻¹
          (toVec ((nodeOrder elems).length + (vsourceNames elems).length)
            (rhsColumn (generate_eqns elems)))) := by
  have hgood := generate_eqns_good elems
  have hcoeff_len : (coeffMatrix (generate_eqns elems)).length =
      (nodeOrder elems).length + (vsourceNames elems).length := by
    rw [coeffMatrix, List.length_map, hgood.1]
  have hcoeff_rows : ∀ r ∈ coeffMatrix (generate_eqns elems),
      r.length = (nodeOrder elems).length + (vsourceNames elems).length := by
    intro r hrmem
    rw [coeffMatrix] at hrmem
    obtain ⟨r0, hr0, rfl⟩ := List.mem_map.mp hrmem
    rw [List.length_dropLast, hgood.2 r0 hr0]
    omega
  have hrhs_len : (rhsColumn (generate_eqns elems)).length =
      (nodeOrder elems).length + (vsourceNames elems).length := by
    rw [rhsColumn, List.length_map, hgood.1]
  constructor
  · intro h
    rw [solve, if_pos h]
  · intro h
    refine ⟨?_, ?_⟩
    · rw [solve, if_neg h]
    · exact toVec_cramerX_inv_mulVec _ _ _ hcoeff_len hcoeff_rows hrhs_len

/-- C8 witness: the one-resistor circuit R1 n1 GND 2 has a nonsingular
1 x 1 system, so the nonsingular branch of the contract applies to it. -/
theorem solve_contract_witness :
    detL (coeffMatrix (generate_eqns oneResistor)) ≠ 0 ∧
    (solve oneResistor = .ok
      ((nodeOrder oneResistor).zip
        ((cramerX (coeffMatrix (generate_eqns oneResistor))
          (rhsColumn (generate_eqns oneResistor))).take (nodeOrder oneResistor).length),
       (vsourceNames oneResistor).zip
        ((cramerX (coeffMatrix (generate_eqns oneResistor))
          (rhsColumn (generate_eqns oneResistor))).drop (nodeOrder oneResistor).length)) ∧
      toVec ((nodeOrder oneResistor).length + (vsourceNames oneResistor).length)
          (cramerX (coeffMatrix (generate_eqns oneResistor))
            (rhsColumn (generate_eqns oneResistor))) =
        Matrix.mulVec
          (toMat ((nodeOrder oneResistor).length + (vsourceNames oneResistor).length)
            (coeffMatrix (generate_eqns oneResistor)))⁻¹
          (toVec ((nodeOrder oneResistor).length + (vsourceNames oneResistor).length)
            (rhsColumn (generate_eqns oneResistor)))) := by
  have hd : detL (coeffMatrix (generate_eqns oneResistor)) ≠ 0 := by
    have h1 : List.range 1 = [0] := rfl
    simp [oneResistor, generate_eqns, stamp, nodeOrder, vsourceNames, nodeIdx, ground,
      addAt, setAdd, coeffMatrix, detL, List.indexOf?, h1]
  exact ⟨hd, (solve_contract oneResistor).2 hd⟩

end Spice
